import Mathlib

/-!
Verification of the incremental aggregation engine of `scraper.py`
(DevOpsToolHub): the merge engine, identity-key deduplication, the
GitHub metadata cache with bounded retry, the checkpoint store and the
pipeline orchestrator, shallowly embedded in Lean.
-/

/-- Modelled from the spec: the `Tool` dataclass lives in `common.py`, which is
not among the source files; its fields follow spec section 3 (name,
description, category, importance, isOpenSource, url, documentationUrl,
githubUrl, stars, language, topics, tags), with constructor defaults of the
empty string, `true` for `isOpenSource`, `0` for `stars` and the empty list
for the collection fields. -/
structure Tool where
  name : String
  description : String := ""
  category : String := ""
  importance : String := ""
  isOpenSource : Bool := true
  url : String := ""
  documentationUrl : String := ""
  githubUrl : String := ""
  stars : Nat := 0
  language : String := ""
  topics : List String := []
  tags : List String := []
deriving DecidableEq, Repr

/-- All field defaults of the modelled `Tool` constructor, at a placeholder
name (`name` is the only required field). -/
def toolDefaults : Tool := { name := "" }

/-- Python `a or b` on strings: the left operand wins unless it is empty
(an empty string is falsy). -/
def strOr (a b : String) : String := if a = "" then b else a

/-- Deterministic rendering of `list(set(xs) | set(ys))` from
`merge_tools`: the union of the two tag lists with duplicates collapsed.
The source materialises a Python set (order insignificant per spec
section 3); we fix the order as dedup-of-concatenation, keeping the last
occurrence, which represents the same set. -/
def tagUnion (xs ys : List String) : List String := (xs ++ ys).dedup

/-- `merge_tools` (scraper.py lines 1456 to 1468): merge tool data
preserving existing information when available.  The existing record
supplies `name` and `isOpenSource` unconditionally; the six scalar fields
fall back to the new record only when the existing value is empty; `tags`
is the set union; the remaining `Tool` fields (`stars`, `language`,
`topics`) are not passed to the constructor and so take its defaults. -/
def merge_tools (existing new : Tool) : Tool :=
  { name := existing.name
    description := strOr existing.description new.description
    category := strOr existing.category new.category
    importance := strOr existing.importance new.importance
    isOpenSource := existing.isOpenSource
    url := strOr existing.url new.url
    documentationUrl := strOr existing.documentationUrl new.documentationUrl
    githubUrl := strOr existing.githubUrl new.githubUrl
    tags := tagUnion existing.tags new.tags }

/-- The identity key of a record: `(tool.name.lower(), tool.url,
tool.githubUrl)`, as built at scraper.py lines 1476, 1483, 1494. -/
abbrev Key := String × String × String

/-- Python `s.lower()`, embedded structurally as a per-character map so the
kernel can evaluate it on concrete strings. -/
def pyLower (s : String) : String := ⟨s.data.map Char.toLower⟩

/-- The identity key of a tool. -/
def toolKey (t : Tool) : Key := (pyLower t.name, t.url, t.githubUrl)

/-- An insertion-ordered dictionary, as Python dicts are: an association
list whose keys are unique. -/
abbrev ToolDict := List (Key × Tool)

/-- Python `d[k]` lookup / `k in d` membership on the association list. -/
def assocGet (d : List (Key × Tool)) (k : Key) : Option Tool :=
  match d with
  | [] => none
  | (k₁, v) :: rest => if k₁ = k then some v else assocGet rest k

/-- Python `d[k] = v`: update in place when the key is present (keeping its
position), append otherwise. -/
def assocSet (d : List (Key × Tool)) (k : Key) (v : Tool) : List (Key × Tool) :=
  match d with
  | [] => [(k, v)]
  | (k₁, v₁) :: rest =>
      if k₁ = k then (k₁, v) :: rest else (k₁, v₁) :: assocSet rest k v

/-- The dict comprehension of scraper.py lines 1476 and 1494:
`\x7b(t.name.lower(), t.url, t.githubUrl): t for t in tools\x7d`. -/
def mkDict (ts : List Tool) : ToolDict :=
  ts.foldl (fun d t => assocSet d (toolKey t) t) []

/-- One iteration of the loop body of `merge_new_tools` (scraper.py lines
1482 to 1487). -/
def mergeStep (d : ToolDict) (t : Tool) : ToolDict :=
  match assocGet d (toolKey t) with
  | some ex => assocSet d (toolKey t) (merge_tools ex t)
  | none => assocSet d (toolKey t) t

/-- `merge_new_tools` (scraper.py lines 1480 to 1488): fold the new tools
into a copy of the existing dictionary and return the values in insertion
order. -/
def merge_new_tools (existing_dict : ToolDict) (new_tools : List Tool) : List Tool :=
  (new_tools.foldl mergeStep existing_dict).map Prod.snd

/-- The fixed allow-list of `determine_importance` (scraper.py line 97). -/
def essential_tools : List String :=
  ["kubernetes", "docker", "jenkins", "terraform", "prometheus", "git"]

/-- `determine_importance` (scraper.py lines 90 to 102). The description
argument participates only through lowercasing in the source and never
affects the result. -/
def determine_importance (name : String) (description : String) (stars : Nat) : String :=
  let nm := pyLower name
  let _ := pyLower description
  if essential_tools.contains nm || stars > 10000 then "Essential"
  else if stars > 5000 then "Recommended"
  else "Optional"

/-! ## Theorems about the merge engine -/

/-- C1: `merge_tools` keeps the existing name and isOpenSource, unions the
tags, and for each of the six scalar fields keeps the existing value when
non-empty and takes the incoming value otherwise. -/
theorem merge_tools_field_spec (e n : Tool) :
    (merge_tools e n).name = e.name ∧
    (merge_tools e n).isOpenSource = e.isOpenSource ∧
    (merge_tools e n).tags.toFinset = e.tags.toFinset ∪ n.tags.toFinset ∧
    (merge_tools e n).description =
      (if e.description = "" then n.description else e.description) ∧
    (merge_tools e n).category =
      (if e.category = "" then n.category else e.category) ∧
    (merge_tools e n).importance =
      (if e.importance = "" then n.importance else e.importance) ∧
    (merge_tools e n).url = (if e.url = "" then n.url else e.url) ∧
    (merge_tools e n).documentationUrl =
      (if e.documentationUrl = "" then n.documentationUrl else e.documentationUrl) ∧
    (merge_tools e n).githubUrl =
      (if e.githubUrl = "" then n.githubUrl else e.githubUrl) := by
  refine ⟨rfl, rfl, ?_, rfl, rfl, rfl, rfl, rfl, rfl⟩
  show (tagUnion e.tags n.tags).toFinset = _
  unfold tagUnion
  ext a
  simp [List.mem_dedup]

/-- Dedup of a concatenation whose left part is contained in the right part
collapses to dedup of the right part. -/
lemma dedup_append_of_forall_mem {l₁ l₂ : List String}
    (h : ∀ x ∈ l₁, x ∈ l₂) : (l₁ ++ l₂).dedup = l₂.dedup := by
  induction l₁ with
  | nil => rfl
  | cons a l ih =>
      have ha : a ∈ l ++ l₂ := List.mem_append_right l (h a (List.mem_cons_self a l))
      calc ((a :: l) ++ l₂).dedup = (a :: (l ++ l₂)).dedup := rfl
        _ = (l ++ l₂).dedup := List.dedup_cons_of_mem ha
        _ = l₂.dedup := ih (fun x hx => h x (List.mem_cons_of_mem a hx))

/-- The tag union absorbs a repeated left operand. -/
lemma tagUnion_self_absorb (xs ys : List String) :
    tagUnion xs (tagUnion xs ys) = tagUnion xs ys := by
  unfold tagUnion
  have h : ∀ x ∈ xs, x ∈ (xs ++ ys).dedup := fun x hx =>
    List.mem_dedup.mpr (List.mem_append_left ys hx)
  rw [dedup_append_of_forall_mem h, List.dedup_idem]

/-- Python `a or b` on strings absorbs a repeated left operand. -/
lemma strOr_self_absorb (a b : String) : strOr a (strOr a b) = strOr a b := by
  unfold strOr
  by_cases h : a = "" <;> simp [h]

/-- C8: merging the same existing record again onto an already merged result
changes nothing, for records with equal identity keys. -/
theorem merge_tools_idempotent (a b : Tool) (h : toolKey a = toolKey b) :
    merge_tools a (merge_tools a b) = merge_tools a b := by
  unfold merge_tools
  simp only [Tool.mk.injEq, strOr_self_absorb, tagUnion_self_absorb, and_self]

/-- Concrete pair of records with equal identity keys, for the witness. -/
def idemWitnessA : Tool :=
  { name := "Vault", description := "secrets", url := "https://vaultproject.io",
    githubUrl := "https://github.com/hashicorp/vault", tags := ["security"] }

/-- Second concrete record of the witness pair: same identity key, different
scalar content. -/
def idemWitnessB : Tool :=
  { name := "vault", description := "", category := "Security",
    url := "https://vaultproject.io",
    githubUrl := "https://github.com/hashicorp/vault", tags := ["secrets"] }

/-- Witness for C8 at a concrete pair of records with equal identity keys. -/
theorem merge_tools_idempotent_witness :
    toolKey idemWitnessA = toolKey idemWitnessB ∧
    merge_tools idemWitnessA (merge_tools idemWitnessA idemWitnessB) =
      merge_tools idemWitnessA idemWitnessB :=
  ⟨by decide, merge_tools_idempotent idemWitnessA idemWitnessB (by decide)⟩

/-- C9: the tag set of a merge does not depend on the direction of the
merge. -/
theorem merge_tools_tags_comm (a b : Tool) :
    (merge_tools a b).tags.toFinset = (merge_tools b a).tags.toFinset := by
  show (tagUnion a.tags b.tags).toFinset = (tagUnion b.tags a.tags).toFinset
  unfold tagUnion
  ext x
  simp [List.mem_dedup, or_comm]

/-- C10: `merge_tools` never passes `stars`, `language` or `topics` to the
constructor, so the result carries the constructor defaults for those three
fields regardless of either input. -/
theorem merge_tools_drops_unlisted_fields (e n : Tool) :
    (merge_tools e n).stars = toolDefaults.stars ∧
    (merge_tools e n).language = toolDefaults.language ∧
    (merge_tools e n).topics = toolDefaults.topics :=
  ⟨rfl, rfl, rfl⟩

/-! ## Identity-key uniqueness of the folded working set -/

/-- The keys of the dictionary are pairwise distinct (a Python dict cannot
hold a key twice). -/
def KeysNodup (d : ToolDict) : Prop := (d.map Prod.fst).Nodup

/-- Every stored record hangs under its own identity key, as the dict
comprehensions of `main` guarantee. -/
def KeyConsistent (d : ToolDict) : Prop := ∀ p ∈ d, toolKey p.2 = p.1

lemma assocGet_eq_none_iff (d : ToolDict) (k : Key) :
    assocGet d k = none ↔ k ∉ d.map Prod.fst := by
  induction d with
  | nil => simp [assocGet]
  | cons p rest ih =>
      obtain ⟨k₁, v₁⟩ := p
      by_cases h : k₁ = k <;> simp [assocGet, h, ih, Ne.symm]

lemma assocGet_mem {d : ToolDict} {k : Key} {v : Tool}
    (h : assocGet d k = some v) : (k, v) ∈ d := by
  induction d with
  | nil => simp [assocGet] at h
  | cons p rest ih =>
      obtain ⟨k₁, v₁⟩ := p
      by_cases hk : k₁ = k
      · simp [assocGet, hk] at h
        simp [hk, h]
      · simp [assocGet, hk] at h
        exact List.mem_cons_of_mem _ (ih h)

lemma map_fst_assocSet (d : ToolDict) (k : Key) (v : Tool) :
    (assocSet d k v).map Prod.fst =
      if k ∈ d.map Prod.fst then d.map Prod.fst
      else d.map Prod.fst ++ [k] := by
  induction d with
  | nil => simp [assocSet]
  | cons p rest ih =>
      obtain ⟨k₁, v₁⟩ := p
      by_cases h : k₁ = k
      · simp [assocSet, h]
      · simp only [assocSet, if_neg h, List.map_cons, ih]
        by_cases hm : k ∈ rest.map Prod.fst <;>
          simp [hm, h, Ne.symm h]

lemma mem_assocSet {d : ToolDict} {k : Key} {v : Tool} {p : Key × Tool}
    (h : p ∈ assocSet d k v) : p ∈ d ∨ p = (k, v) := by
  induction d with
  | nil => simpa [assocSet] using h
  | cons q rest ih =>
      obtain ⟨k₁, v₁⟩ := q
      by_cases hk : k₁ = k
      · simp [assocSet, hk] at h
        rcases h with h | h
        · right; simp [h, hk]
        · left; exact List.mem_cons_of_mem _ h
      · simp only [assocSet, if_neg hk, List.mem_cons] at h
        rcases h with h | h
        · left; simp [h]
        · rcases ih h with h₁ | h₁
          · left; exact List.mem_cons_of_mem _ h₁
          · right; exact h₁

lemma keysNodup_assocSet {d : ToolDict} (k : Key) (v : Tool)
    (hn : KeysNodup d) : KeysNodup (assocSet d k v) := by
  unfold KeysNodup at hn ⊢
  rw [map_fst_assocSet]
  by_cases hm : k ∈ d.map Prod.fst
  · simpa [hm] using hn
  · simp [hm, List.nodup_append, hn]

lemma keyConsistent_assocSet {d : ToolDict} {k : Key} {v : Tool}
    (hc : KeyConsistent d) (hv : toolKey v = k) :
    KeyConsistent (assocSet d k v) := by
  intro p hp
  rcases mem_assocSet hp with h | h
  · exact hc p h
  · rw [h]; exact hv

lemma strOr_self (a : String) : strOr a a = a := by
  unfold strOr; split <;> simp_all

/-- Merging two records with the same identity key yields a record with that
same identity key. -/
lemma toolKey_merge_tools {ex t : Tool} (h : toolKey ex = toolKey t) :
    toolKey (merge_tools ex t) = toolKey ex := by
  simp only [toolKey, Prod.mk.injEq] at h
  simp only [toolKey, merge_tools, Prod.mk.injEq, true_and]
  exact ⟨by rw [← h.2.1, strOr_self], by rw [← h.2.2, strOr_self]⟩

lemma mergeStep_invariants {d : ToolDict} (t : Tool)
    (hn : KeysNodup d) (hc : KeyConsistent d) :
    KeysNodup (mergeStep d t) ∧ KeyConsistent (mergeStep d t) := by
  unfold mergeStep
  cases hg : assocGet d (toolKey t) with
  | none =>
      exact ⟨keysNodup_assocSet _ _ hn, keyConsistent_assocSet hc rfl⟩
  | some ex =>
      have hex : toolKey ex = toolKey t := hc _ (assocGet_mem hg)
      refine ⟨keysNodup_assocSet _ _ hn, keyConsistent_assocSet hc ?_⟩
      rw [toolKey_merge_tools hex, hex]

lemma foldl_mergeStep_invariants (cands : List Tool) :
    ∀ d : ToolDict, KeysNodup d → KeyConsistent d →
      KeysNodup (cands.foldl mergeStep d) ∧
      KeyConsistent (cands.foldl mergeStep d) := by
  induction cands with
  | nil => exact fun d hn hc => ⟨hn, hc⟩
  | cons t rest ih =>
      intro d hn hc
      obtain ⟨hn₁, hc₁⟩ := mergeStep_invariants t hn hc
      exact ih (mergeStep d t) hn₁ hc₁

lemma mkDict_invariants (ts : List Tool) :
    KeysNodup (mkDict ts) ∧ KeyConsistent (mkDict ts) := by
  unfold mkDict
  suffices h : ∀ d : ToolDict, KeysNodup d → KeyConsistent d →
      KeysNodup (ts.foldl (fun d t => assocSet d (toolKey t) t) d) ∧
      KeyConsistent (ts.foldl (fun d t => assocSet d (toolKey t) t) d) by
    exact h [] (by simp [KeysNodup]) (by simp [KeyConsistent])
  induction ts with
  | nil => exact fun d hn hc => ⟨hn, hc⟩
  | cons t rest ih =>
      intro d hn hc
      exact ih _ (keysNodup_assocSet _ _ hn) (keyConsistent_assocSet hc rfl)

/-- C3: folding any sequence of candidate records into any initial working
set leaves no two distinct entries sharing an identity key. -/
theorem merge_new_tools_key_unique (init cands : List Tool) :
    (merge_new_tools (mkDict init) cands).Pairwise
      (fun a b => toolKey a ≠ toolKey b) := by
  obtain ⟨hn₀, hc₀⟩ := mkDict_invariants init
  obtain ⟨hn, hc⟩ := foldl_mergeStep_invariants cands (mkDict init) hn₀ hc₀
  unfold merge_new_tools
  rw [List.pairwise_map]
  unfold KeysNodup List.Nodup at hn
  rw [List.pairwise_map] at hn
  exact hn.imp_of_mem (fun {p q} hp hq h => by
    rw [← hc p hp, ← hc q hq] at h; exact h)

/-! ## The Kong example scenario -/

/-- The Kong record as discovered by an awesome list: no homepage url,
zero stars. -/
def kongExisting : Tool :=
  { name := "Kong", githubUrl := "https://github.com/Kong/kong", stars := 0 }

/-- The Kong record as discovered by GitHub topic search: homepage url and
38000 stars, with the importance the scraper derives from the star count. -/
def kongIncoming : Tool :=
  { name := "Kong", url := "https://konghq.com",
    githubUrl := "https://github.com/Kong/kong", stars := 38000,
    importance := determine_importance "Kong" "" 38000 }

/-- C4 counterexample: folding the second Kong record into a working set
holding the first yields two records named Kong, not exactly one — their
identity keys differ in the url component, so no merge happens. -/
theorem kong_records_not_merged :
    ((merge_new_tools (mkDict [kongExisting]) [kongIncoming]).filter
        (fun t => t.name == "Kong")).length ≠ 1 := by decide

/-- C4 amended: the two Kong records have distinct identity keys, so the
fold keeps both, each unchanged; the incoming record alone carries
`importance = "Essential"` (from its 38000 stars), and nothing is merged. -/
theorem kong_scenario_amended :
    toolKey kongExisting ≠ toolKey kongIncoming ∧
    merge_new_tools (mkDict [kongExisting]) [kongIncoming] =
      [kongExisting, kongIncoming] ∧
    kongIncoming.importance = "Essential" := by decide

/-! ## The GitHub metadata cache with bounded retry -/

/-- `MAX_RETRIES` (scraper.py line 29). -/
def MAX_RETRIES : Nat := 3

/-- A metadata record as cached by `extract_github_info`: the success path
stores a `name` key, the default dict carries none. -/
structure GHInfo where
  stars : Nat
  description : String
  is_open_source : Bool
  name : Option String := none
deriving DecidableEq, Repr

/-- The safe default `\x7b'stars': 0, 'description': '', 'is_open_source':
True\x7d` returned on every failure path. -/
def defaultGHInfo : GHInfo :=
  { stars := 0, description := "", is_open_source := true }

/-- Outcome of one `gh repo view` subprocess call: a parsed success, a
nonzero exit whose stderr mentions the rate limit, a timeout or JSON decode
exception, or any other nonzero exit. -/
inductive GHResponse
  | success (stars : Nat) (description : String) (isPrivate : Bool) (name : String)
  | rateLimited
  | timeoutOrBadJson
  | otherError
deriving DecidableEq, Repr

/-- Whether the provider call parsed successfully. -/
def GHResponse.isSuccess : GHResponse → Bool
  | .success .. => true
  | _ => false

/-- The durable `github_cache` mapping urls to metadata. -/
abbrev GHCache := List (String × GHInfo)

/-- Python `url in github_cache` / `github_cache[url]`. -/
def cacheGet (c : GHCache) (u : String) : Option GHInfo :=
  match c with
  | [] => none
  | (u₁, i) :: rest => if u₁ = u then some i else cacheGet rest u

/-- Python `github_cache[url] = info`. -/
def cacheSet (c : GHCache) (u : String) (i : GHInfo) : GHCache :=
  match c with
  | [] => [(u, i)]
  | (u₁, i₁) :: rest =>
      if u₁ = u then (u₁, i) :: rest else (u₁, i₁) :: cacheSet rest u i

/-- Whether the first character list starts the second. -/
def subStart : List Char → List Char → Bool
  | [], _ => true
  | _ :: _, [] => false
  | a :: as, b :: bs => a == b && subStart as bs

/-- Whether the first character list occurs contiguously in the second. -/
def hasSubstring (needle : List Char) : List Char → Bool
  | [] => needle.isEmpty
  | b :: rest => subStart needle (b :: rest) || hasSubstring needle rest

/-- Python `'github.com' in url`. -/
def containsGithub (url : String) : Bool :=
  hasSubstring "github.com".data url.data

/-- Python `url.strip('/')`: drop leading and trailing slashes. -/
def stripSlashes (s : String) : String :=
  ⟨((s.data.dropWhile (· == '/')).reverse.dropWhile (· == '/')).reverse⟩

/-- Python `str.split(sep)` for a single-character separator, on the
character list: splitting the empty list gives one empty part, exactly as
`''.split('/') == ['']`. -/
def splitChar (c : Char) : List Char → List (List Char)
  | [] => [[]]
  | a :: rest =>
      match splitChar c rest with
      | [] => if a == c then [[], []] else [[a]]
      | s :: ss => if a == c then [] :: s :: ss else (a :: s) :: ss

/-- What one call tree of `extract_github_info` produces: the returned info
dict, the durable cache afterwards, the backoff delays slept (in seconds),
and how many subprocess calls were issued. -/
structure ExtractResult where
  info : GHInfo
  cache : GHCache
  sleeps : List ℚ
  calls : Nat
deriving DecidableEq, Repr

/-- The backoff sleep a retry invocation performs before its provider call:
`min(300, GITHUB_RATE_LIMIT_SLEEP * (2 ** retry_count))` seconds when
`retry_count > 0`, nothing on the first attempt (scraper.py lines 123 to
127). -/
def backoffSleeps (base : ℚ) (retry_count : Nat) : List ℚ :=
  if 0 < retry_count then [min 300 (base * 2 ^ retry_count)] else []

/-- `extract_github_info` (scraper.py lines 104 to 164), with the provider
subprocess abstracted as `env` (the response to the call made at a given
retry depth) and the module-level `GITHUB_RATE_LIMIT_SLEEP` as `base`.
Guard order follows the source: empty or non-GitHub url first, then the
cache hit, then the short-url check, then the backoff sleep and the call;
a rate limit or a timeout/JSON error recurses while `retry_count <
MAX_RETRIES`, every other failure returns the default, and only the success
path writes the cache. -/
def extract_github_info (env : Nat → GHResponse) (base : ℚ) (cache : GHCache)
    (url : String) (retry_count : Nat) : ExtractResult :=
  if url = "" ∨ containsGithub url = false then
    { info := defaultGHInfo, cache := cache, sleeps := [], calls := 0 }
  else
    match cacheGet cache url with
    | some info => { info := info, cache := cache, sleeps := [], calls := 0 }
    | none =>
        if (splitChar '/' (stripSlashes url).data).length < 5 then
          { info := defaultGHInfo, cache := cache, sleeps := [], calls := 0 }
        else
          match env retry_count with
          | .success s d p nm =>
              { info := { stars := s, description := d,
                          is_open_source := !p, name := some nm }
                cache := cacheSet cache url
                  { stars := s, description := d,
                    is_open_source := !p, name := some nm }
                sleeps := backoffSleeps base retry_count, calls := 1 }
          | .rateLimited =>
              if h : retry_count < MAX_RETRIES then
                { info := (extract_github_info env base cache url (retry_count + 1)).info
                  cache := (extract_github_info env base cache url (retry_count + 1)).cache
                  sleeps := backoffSleeps base retry_count ++
                    (extract_github_info env base cache url (retry_count + 1)).sleeps
                  calls := 1 + (extract_github_info env base cache url (retry_count + 1)).calls }
              else
                { info := defaultGHInfo, cache := cache,
                  sleeps := backoffSleeps base retry_count, calls := 1 }
          | .timeoutOrBadJson =>
              if h : retry_count < MAX_RETRIES then
                { info := (extract_github_info env base cache url (retry_count + 1)).info
                  cache := (extract_github_info env base cache url (retry_count + 1)).cache
                  sleeps := backoffSleeps base retry_count ++
                    (extract_github_info env base cache url (retry_count + 1)).sleeps
                  calls := 1 + (extract_github_info env base cache url (retry_count + 1)).calls }
              else
                { info := defaultGHInfo, cache := cache,
                  sleeps := backoffSleeps base retry_count, calls := 1 }
          | .otherError =>
              { info := defaultGHInfo, cache := cache,
                sleeps := backoffSleeps base retry_count, calls := 1 }
termination_by MAX_RETRIES - retry_count
decreasing_by all_goals omega

lemma cacheGet_mem {c : GHCache} {u : String} {i : GHInfo}
    (h : cacheGet c u = some i) : (u, i) ∈ c := by
  induction c with
  | nil => simp [cacheGet] at h
  | cons p rest ih =>
      obtain ⟨u₁, i₁⟩ := p
      by_cases hu : u₁ = u
      · simp [cacheGet, hu] at h
        simp [hu, h]
      · simp [cacheGet, hu] at h
        exact List.mem_cons_of_mem _ (ih h)

/-- Core facts of every `extract_github_info` call tree, by strong
induction on the remaining retry budget: the call count is bounded, every
sleep is the capped exponential-backoff formula at some retry depth between
1 and `MAX_RETRIES`, and when no attempt ever succeeds the result is the
default and the durable cache is untouched. -/
lemma mem_backoffSleeps {base : ℚ} {rc : Nat} (hrc : rc ≤ MAX_RETRIES) :
    ∀ d ∈ backoffSleeps base rc,
      ∃ k, 1 ≤ k ∧ k ≤ MAX_RETRIES ∧ d = min 300 (base * 2 ^ k) := by
  unfold backoffSleeps
  by_cases h0 : 0 < rc
  · simp only [if_pos h0, List.mem_singleton]
    exact fun d hd => ⟨rc, h0, hrc, hd⟩
  · simp [if_neg h0]

/-- Core facts of every `extract_github_info` call tree, by strong
induction on the remaining retry budget: the call count is bounded, every
sleep is the capped exponential-backoff formula at some retry depth between
1 and `MAX_RETRIES`, and when the cache misses and no attempt ever succeeds
the result is the default and the durable cache is untouched. -/
lemma extract_github_info_aux (env : Nat → GHResponse) (base : ℚ)
    (cache : GHCache) (url : String) :
    ∀ fuel rc, MAX_RETRIES - rc = fuel → rc ≤ MAX_RETRIES →
      (extract_github_info env base cache url rc).calls ≤ MAX_RETRIES + 1 - rc ∧
      (∀ d ∈ (extract_github_info env base cache url rc).sleeps,
          ∃ k, 1 ≤ k ∧ k ≤ MAX_RETRIES ∧ d = min 300 (base * 2 ^ k)) ∧
      (cacheGet cache url = none → (∀ k, (env k).isSuccess = false) →
          (extract_github_info env base cache url rc).info = defaultGHInfo ∧
          (extract_github_info env base cache url rc).cache = cache) := by
  intro fuel
  induction fuel using Nat.strong_induction_on with
  | _ fuel ih =>
      intro rc hfuel hrc
      rw [extract_github_info]
      split
      · exact ⟨by dsimp only; omega, by dsimp only; simp, fun _ _ => ⟨rfl, rfl⟩⟩
      · split
        · rename_i info heq
          exact ⟨by dsimp only; omega, by dsimp only; simp,
            fun hnone _ => absurd heq (by simp [hnone])⟩
        · rename_i heq
          split
          · exact ⟨by dsimp only; omega, by dsimp only; simp, fun _ _ => ⟨rfl, rfl⟩⟩
          · split
            · rename_i s d p nm henv
              refine ⟨by dsimp only; omega, by dsimp only; exact mem_backoffSleeps hrc,
                fun _ hfail => absurd (congrArg GHResponse.isSuccess henv) ?_⟩
              rw [hfail rc]
              simp [GHResponse.isSuccess]
            · split
              · rename_i henv h
                have hrec := ih (MAX_RETRIES - (rc + 1)) (by omega) (rc + 1)
                  rfl (by omega)
                refine ⟨by dsimp only; omega, ?_, fun hnone hfail => ?_⟩
                · dsimp only
                  intro d hd
                  rcases List.mem_append.mp hd with hd | hd
                  · exact mem_backoffSleeps hrc d hd
                  · exact hrec.2.1 d hd
                · exact ⟨(hrec.2.2 hnone hfail).1, (hrec.2.2 hnone hfail).2⟩
              · exact ⟨by dsimp only; omega,
                  by dsimp only; exact mem_backoffSleeps hrc, fun _ _ => ⟨rfl, rfl⟩⟩
            · split
              · rename_i henv h
                have hrec := ih (MAX_RETRIES - (rc + 1)) (by omega) (rc + 1)
                  rfl (by omega)
                refine ⟨by dsimp only; omega, ?_, fun hnone hfail => ?_⟩
                · dsimp only
                  intro d hd
                  rcases List.mem_append.mp hd with hd | hd
                  · exact mem_backoffSleeps hrc d hd
                  · exact hrec.2.1 d hd
                · exact ⟨(hrec.2.2 hnone hfail).1, (hrec.2.2 hnone hfail).2⟩
              · exact ⟨by dsimp only; omega,
                  by dsimp only; exact mem_backoffSleeps hrc, fun _ _ => ⟨rfl, rfl⟩⟩
            · exact ⟨by dsimp only; omega,
                by dsimp only; exact mem_backoffSleeps hrc, fun _ _ => ⟨rfl, rfl⟩⟩

/-- C5: a lookup started at retry depth 0 issues at most `MAX_RETRIES + 1`
provider calls (so at most `MAX_RETRIES` retries), every backoff delay it
sleeps is the capped formula `min 300 (base * 2 ^ attempt)` and never
exceeds 300 seconds, and when the cache misses and every attempt hits the
rate limit the lookup returns the safe default and leaves the durable cache
untouched.  Totality of `extract_github_info` is the termination and
never-raises part of the claim. -/
theorem extract_github_info_backoff_bound (env : Nat → GHResponse) (base : ℚ)
    (cache : GHCache) (url : String) :
    (extract_github_info env base cache url 0).calls ≤ MAX_RETRIES + 1 ∧
    (∀ d ∈ (extract_github_info env base cache url 0).sleeps,
        d ≤ 300 ∧ ∃ k, 1 ≤ k ∧ k ≤ MAX_RETRIES ∧ d = min 300 (base * 2 ^ k)) ∧
    (cacheGet cache url = none → (∀ k, env k = GHResponse.rateLimited) →
        (extract_github_info env base cache url 0).info = defaultGHInfo ∧
        (extract_github_info env base cache url 0).cache = cache) := by
  obtain ⟨h1, h2, h3⟩ :=
    extract_github_info_aux env base cache url MAX_RETRIES 0 rfl (by omega)
  refine ⟨by simpa using h1, fun d hd => ?_,
    fun hnone hrl => h3 hnone (fun k => by rw [hrl k]; rfl)⟩
  obtain ⟨k, hk1, hk2, hk3⟩ := h2 d hd
  exact ⟨by rw [hk3]; exact min_le_left _ _, ⟨k, hk1, hk2, hk3⟩⟩

/-- C7: the metadata lookup is total (never raises); an empty or
non-GitHub url returns the default immediately with no provider call, no
sleep and no cache write; a url present in the cache (whose keys are
repository urls, the only keys the code ever writes) returns the cached
value with no provider call and no cache write; and when the cache misses
and no attempt succeeds the returned info is the safe default. -/
theorem extract_github_info_contract (env : Nat → GHResponse) (base : ℚ)
    (cache : GHCache) (url : String) :
    ((url = "" ∨ containsGithub url = false) →
        extract_github_info env base cache url 0 =
          { info := defaultGHInfo, cache := cache, sleeps := [], calls := 0 }) ∧
    ((∀ p ∈ cache, containsGithub p.1 = true) →
        ∀ info, cacheGet cache url = some info →
          extract_github_info env base cache url 0 =
            { info := info, cache := cache, sleeps := [], calls := 0 }) ∧
    ((∀ k, (env k).isSuccess = false) → cacheGet cache url = none →
        (extract_github_info env base cache url 0).info = defaultGHInfo) := by
  refine ⟨fun hguard => ?_, fun hkeys info hget => ?_, fun hfail hnone =>
    ((extract_github_info_aux env base cache url MAX_RETRIES 0 rfl
      (by omega)).2.2 hnone hfail).1⟩
  · rw [extract_github_info, if_pos hguard]
  · have hgh : containsGithub url = true := hkeys (url, info) (cacheGet_mem hget)
    have hguard : ¬ (url = "" ∨ containsGithub url = false) := by
      rintro (h | h)
      · subst h; exact absurd hgh (by decide)
      · rw [h] at hgh; simp at hgh
    rw [extract_github_info, if_neg hguard, hget]

/-! ## The checkpoint store -/

/-- Content of the checkpoint file: JSON that parses into a list of tools,
or content on which `json.load` or the `Tool(**d)` constructions raise. -/
inductive CkptFile
  | valid (tools : List Tool)
  | corrupt
deriving DecidableEq, Repr

/-- The slice of the filesystem the checkpoint store touches: the
checkpoint file when it exists, and the timestamped backup files, newest
first. -/
structure FS where
  checkpoint : Option CkptFile
  backups : List CkptFile
deriving DecidableEq, Repr

/-- `load_checkpoint` (scraper.py lines 1422 to 1436): return the parsed
tools when the file exists and parses; return the empty list when the file
is missing; on a parse failure, catch it, rename the corrupt file to a
timestamped backup path and return the empty list. -/
def load_checkpoint (fs : FS) : List Tool × FS :=
  match fs.checkpoint with
  | none => ([], fs)
  | some (.valid tools) => (tools, fs)
  | some .corrupt =>
      ([], { checkpoint := none, backups := CkptFile.corrupt :: fs.backups })

/-- C6: `load_checkpoint` is total (never raises); with no checkpoint file
it returns the empty list and touches nothing, and with a corrupt
checkpoint file it returns the empty list, removes the file from the
checkpoint path and keeps it on disk under a backup path. -/
theorem load_checkpoint_never_raises (fs : FS) :
    (fs.checkpoint = none → load_checkpoint fs = ([], fs)) ∧
    (fs.checkpoint = some CkptFile.corrupt →
        (load_checkpoint fs).1 = [] ∧
        (load_checkpoint fs).2.checkpoint = none ∧
        CkptFile.corrupt ∈ (load_checkpoint fs).2.backups) := by
  obtain ⟨c, b⟩ := fs
  refine ⟨fun h => ?_, fun h => ?_⟩
  · dsimp only at h
    subst h
    rfl
  · dsimp only at h
    subst h
    exact ⟨rfl, rfl, List.mem_cons_self _ _⟩

/-- Witness for C6 at concrete filesystem states: a missing checkpoint and
a corrupt checkpoint. -/
theorem load_checkpoint_never_raises_witness :
    ((⟨none, []⟩ : FS).checkpoint = none →
        load_checkpoint ⟨none, []⟩ = ([], ⟨none, []⟩)) ∧
    ((⟨some CkptFile.corrupt, []⟩ : FS).checkpoint = some CkptFile.corrupt →
        (load_checkpoint ⟨some CkptFile.corrupt, []⟩).1 = [] ∧
        (load_checkpoint ⟨some CkptFile.corrupt, []⟩).2.checkpoint = none ∧
        CkptFile.corrupt ∈ (load_checkpoint ⟨some CkptFile.corrupt, []⟩).2.backups) :=
  ⟨(load_checkpoint_never_raises ⟨none, []⟩).1,
   (load_checkpoint_never_raises ⟨some CkptFile.corrupt, []⟩).2⟩

/-! ## The pipeline orchestrator -/

/-- What one collection stage does when invoked: produce a list of candidate
records, or raise an unexpected error. -/
inductive StageOutcome
  | ok (ts : List Tool)
  | err
deriving DecidableEq, Repr

/-- The transient state of `main` between stages: the working set and the
checkpoints saved so far. -/
structure PipeState where
  tools : List Tool
  saved : List (List Tool)
deriving DecidableEq, Repr

/-- What a run of `main` is observed to do: the outcome handed to the
caller (an `Except.error` models the re-raise at scraper.py line 1562) and
the checkpoints saved along the way. -/
structure MainResult where
  outcome : Except Unit (List Tool)
  saved : List (List Tool)

/-- The five collection stages of `main` that sit directly in its body
(CNCF landscape, GitHub topics, package registries, additional registries,
awesome lists; scraper.py lines 1491 to 1524): each folds its output into
the working set and checkpoints, and an error propagates at once to the
enclosing handler of `main`, carrying the state reached so far. -/
def runUnguardedStages (st : PipeState) : List StageOutcome → Except PipeState PipeState
  | [] => .ok st
  | o :: rest =>
      match o with
      | .err => .error st
      | .ok ts =>
          runUnguardedStages
            ⟨merge_new_tools (mkDict st.tools) ts,
             st.saved ++ [merge_new_tools (mkDict st.tools) ts]⟩ rest

/-- `main` (scraper.py lines 1470 to 1562) from the point after the initial
checkpoint load: the five unguarded stages run in order, then the
marketplace stage inside its own try block (lines 1527 to 1536, whose error
is caught and logged), then finalization; the outer handler catches any
stage error, logs it and re-raises it to the caller. -/
def mainRun (init : List Tool) (stages : List StageOutcome)
    (marketplace : StageOutcome) : MainResult :=
  match runUnguardedStages ⟨init, []⟩ stages with
  | .error st => { outcome := .error (), saved := st.saved }
  | .ok st =>
      match marketplace with
      | .err => { outcome := .ok st.tools, saved := st.saved }
      | .ok ts =>
          { outcome := .ok (merge_new_tools (mkDict st.tools) ts)
            saved := st.saved ++ [merge_new_tools (mkDict st.tools) ts] }

/-- C2 counterexample: with the second of five stages raising, the run
re-raises to the caller instead of proceeding, and only the first stage was
checkpointed — the remaining stages never ran. -/
theorem stage_error_aborts_run :
    (mainRun [] [StageOutcome.ok [], StageOutcome.err, StageOutcome.ok [],
        StageOutcome.ok [], StageOutcome.ok []] (StageOutcome.ok [])).outcome =
      Except.error () ∧
    (mainRun [] [StageOutcome.ok [], StageOutcome.err, StageOutcome.ok [],
        StageOutcome.ok [], StageOutcome.ok []] (StageOutcome.ok [])).saved.length = 1 :=
  ⟨rfl, rfl⟩

lemma runUnguardedStages_error_iff (stages : List StageOutcome) :
    ∀ st : PipeState,
      (∃ st₁, runUnguardedStages st stages = .error st₁) ↔
        StageOutcome.err ∈ stages := by
  induction stages with
  | nil => intro st; simp [runUnguardedStages]
  | cons o rest ih =>
      intro st
      cases o with
      | err => simp [runUnguardedStages]
      | ok ts => simp [runUnguardedStages, ih]

/-- C2 amended: a run of `main` re-raises to its caller exactly when one of
the five unguarded stages raises; only the final marketplace stage is
guarded, so its failure alone never aborts the run. -/
theorem main_error_iff (init : List Tool) (stages : List StageOutcome)
    (marketplace : StageOutcome) :
    (mainRun init stages marketplace).outcome = Except.error () ↔
      StageOutcome.err ∈ stages := by
  unfold mainRun
  cases h : runUnguardedStages ⟨init, []⟩ stages with
  | error st =>
      exact ⟨fun _ => (runUnguardedStages_error_iff stages _).mp ⟨st, h⟩,
        fun _ => rfl⟩
  | ok st =>
      have hmem : StageOutcome.err ∉ stages := fun hm => by
        obtain ⟨st₁, h₁⟩ := (runUnguardedStages_error_iff stages ⟨init, []⟩).mpr hm
        rw [h] at h₁
        exact Except.noConfusion h₁
      cases marketplace <;> simp [hmem]
